import Mathlib

/-!
Verification development for the beehiveMQTT broker core.

Shallow embedding of the Python sources in `beehivemqtt/`:
`utils.py` (wire codec and validation), `qos.py` (QoS state machines),
`topic.py` (subscription trie), `retained.py` (retained-message store),
`router.py` (publish fan-out) and `broker.py` (PUBLISH / PUBREL packet
processing).  Byte strings are modelled as `List Nat`, Python dicts as
association lists (insertion-ordered, assignment replaces the first
matching key or appends), and the effects of the asynchronous handlers
(packets written, messages routed, entries tracked) as explicit effect
lists.
-/

namespace Beehive

/-- Association-list lookup: Python `d[k]` / `k in d` (first matching key). -/
def alLookup {α : Type} [DecidableEq α] {β : Type} (k : α) :
    List (α × β) → Option β
  | [] => none
  | (k', v) :: rest => if k = k' then some v else alLookup k rest

/-- Association-list assignment: Python `d[k] = v` (replace first match,
else append at the end, preserving insertion order). -/
def alInsert {α : Type} [DecidableEq α] {β : Type} (k : α) (v : β) :
    List (α × β) → List (α × β)
  | [] => [(k, v)]
  | (k', v') :: rest =>
    if k = k' then (k, v) :: rest else (k', v') :: alInsert k v rest

/-- Association-list deletion: Python `del d[k]` (removes the first
matching key; no-op when absent). -/
def alErase {α : Type} [DecidableEq α] {β : Type} (k : α) :
    List (α × β) → List (α × β)
  | [] => []
  | (k', v') :: rest =>
    if k = k' then rest else (k', v') :: alErase k rest

/-- Keys of an association list. -/
def alKeys {α β : Type} (l : List (α × β)) : List α := l.map Prod.fst

/-! ## Codec — `utils.py` -/

/-- Loop body of `encode_remaining_length` (utils.py:11-32): emit base-128
digits, least significant first, setting bit 7 on every byte that has a
successor.  `fuel` bounds the iteration count; 4 suffices for every value
the guard admits (values below `128^4`). -/
def encRLAux : Nat → Nat → List Nat
  | 0, _ => []
  | fuel + 1, n =>
    let b := n % 128
    let rest := n / 128
    if 0 < rest then (b ||| 128) :: encRLAux fuel rest else [b]

/-- `encode_remaining_length` (utils.py:11-32).  Raising `ValueError` for
values outside `0..268435455` is modelled as `none`. -/
def encode_remaining_length (n : Nat) : Option (List Nat) :=
  if 268435455 < n then none else some (encRLAux 4 n)

/-- Loop of `decode_remaining_length` (utils.py:35-59): consume bytes while
bit 7 is set, accumulating `(byte & 0x7F) * multiplier`; a fifth byte or a
short buffer is a malformed length (`none`). -/
def decRLAux : List Nat → Nat → Nat → Nat → Option (Nat × Nat)
  | data, byteCount, multiplier, value =>
    if 4 ≤ byteCount then none
    else
      match data with
      | [] => none
      | b :: rest =>
        let value' := value + (b &&& 0x7F) * multiplier
        if b &&& 0x80 = 0 then some (value', byteCount + 1)
        else decRLAux rest (byteCount + 1) (multiplier * 128) value'

/-- `decode_remaining_length` (utils.py:35-59) at offset 0. -/
def decode_remaining_length (data : List Nat) : Option (Nat × Nat) :=
  decRLAux data 0 1 0

/-- `encode_utf8_string` (utils.py:62-75): 2-byte big-endian length prefix
followed by the bytes; `struct.pack` rejects lengths above 65535 (`none`). -/
def encode_utf8_string (s : List Nat) : Option (List Nat) :=
  if 65535 < s.length then none
  else some (s.length / 256 :: s.length % 256 :: s)

/-- `decode_utf8_string` (utils.py:78-90) at offset 0: reads the 2-byte
length then slices (a short slice truncates, as Python slicing does);
fewer than two bytes makes `struct.unpack_from` fail (`none`). -/
def decode_utf8_string (data : List Nat) : Option (List Nat × Nat) :=
  match data with
  | b0 :: b1 :: rest =>
    let length := b0 * 256 + b1
    some ((rest.take length), 2 + length)
  | _ => none

/-- `validate_topic_name` (utils.py:93-116) as a predicate: `True` on
valid topics, `ValueError` modelled as `false`.  Topics are byte strings;
`+` is byte 43, `#` is byte 35.  The `max_length` parameter defaults to
256 at the call sites inside `broker.py`. -/
def validate_topic_name (topic : List Nat) (max_length : Nat) : Bool :=
  ¬ topic = [] ∧ topic.length ≤ max_length ∧ ¬ 43 ∈ topic ∧ ¬ 35 ∈ topic

/-! ## QoS state machines — `qos.py`

The three per-session pending tables (`ClientSession.pending_qos1`,
`.pending_qos2`, `.pending_qos2_out`) are dicts keyed by packet id.
Timestamps (`ticks_ms()`) are passed in as an explicit `now` argument. -/

/-- `QoS1Outbound` (qos.py:26-36). -/
structure QoS1Entry where
  packet_id : Nat
  topic : List Nat
  payload : List Nat
  qos : Nat
  retry_count : Nat
  timestamp : Nat
  deriving DecidableEq, Repr

/-- `QoS2Inbound` (qos.py:39-52); `state` is `PUBREC_SENT = 0` or
`PUBCOMP_SENT = 1`. -/
structure QoS2InEntry where
  packet_id : Nat
  topic : List Nat
  payload : List Nat
  retain : Bool
  state : Nat
  timestamp : Nat
  deriving DecidableEq, Repr

/-- `QoS2Outbound` (qos.py:55-69); `state` is `AWAITING_PUBREC = 0` or
`AWAITING_PUBCOMP = 1`. -/
structure QoS2OutEntry where
  packet_id : Nat
  topic : List Nat
  payload : List Nat
  state : Nat
  retry_count : Nat
  timestamp : Nat
  deriving DecidableEq, Repr

def PUBREC_SENT : Nat := 0
def PUBCOMP_SENT : Nat := 1

/-- The three QoS pending tables of a `ClientSession` (session.py). -/
structure SessionTables where
  pending_qos1 : List (Nat × QoS1Entry)
  pending_qos2 : List (Nat × QoS2InEntry)
  pending_qos2_out : List (Nat × QoS2OutEntry)
  deriving DecidableEq, Repr

/-- `QoSManager.track_outbound_qos1` (qos.py:83-88). -/
def track_outbound_qos1 (s : SessionTables) (packet_id : Nat)
    (topic payload : List Nat) (qos now : Nat) : SessionTables :=
  { s with pending_qos1 :=
      alInsert packet_id ⟨packet_id, topic, payload, qos, 0, now⟩ s.pending_qos1 }

/-- `QoSManager.handle_puback` (qos.py:90-95): delete the QoS 1 entry if
present and report whether one matched. -/
def handle_puback (s : SessionTables) (packet_id : Nat) :
    SessionTables × Bool :=
  if (alLookup packet_id s.pending_qos1).isSome then
    ({ s with pending_qos1 := alErase packet_id s.pending_qos1 }, true)
  else (s, false)

/-- `QoSManager.track_inbound_qos2` (qos.py:97-102). -/
def track_inbound_qos2 (s : SessionTables) (packet_id : Nat)
    (topic payload : List Nat) (retain : Bool) (now : Nat) : SessionTables :=
  { s with pending_qos2 :=
      (alInsert packet_id ⟨packet_id, topic, payload, retain, PUBREC_SENT, now⟩
        s.pending_qos2) }

/-- `QoSManager.handle_pubrel` (qos.py:104-113): if an inbound entry
exists, set its state to `PUBCOMP_SENT` and return the message for
routing; the entry itself is kept. -/
def handle_pubrel (s : SessionTables) (packet_id : Nat) :
    SessionTables × Option (List Nat × List Nat × Bool) :=
  match alLookup packet_id s.pending_qos2 with
  | none => (s, none)
  | some entry =>
    ({ s with pending_qos2 :=
        alInsert packet_id { entry with state := PUBCOMP_SENT } s.pending_qos2 },
     some (entry.topic, entry.payload, entry.retain))

/-- `QoSManager.track_outbound_qos2` (qos.py:115-120). -/
def track_outbound_qos2 (s : SessionTables) (packet_id : Nat)
    (topic payload : List Nat) (now : Nat) : SessionTables :=
  { s with pending_qos2_out :=
      (alInsert packet_id ⟨packet_id, topic, payload, 0, 0, now⟩
        s.pending_qos2_out) }

/-- `QoSManager.handle_pubcomp` (qos.py:135-146): delete the outbound
QoS 2 entry if present; otherwise fall through to the "also clean up
inbound QoS 2" branch, which deletes a matching inbound entry. -/
def handle_pubcomp (s : SessionTables) (packet_id : Nat) :
    SessionTables × Bool :=
  if (alLookup packet_id s.pending_qos2_out).isSome then
    ({ s with pending_qos2_out := alErase packet_id s.pending_qos2_out }, true)
  else if (alLookup packet_id s.pending_qos2).isSome then
    ({ s with pending_qos2 := alErase packet_id s.pending_qos2 }, true)
  else (s, false)

/-! ## Sessions and router — `session.py`, `router.py`, `broker.py`

The observable actions of the asynchronous handlers (packets written to a
socket, messages handed to the router, hooks fired) are reified as an
effect list; state changes (pending tables, offline queue, packet-id
counter) are returned functionally. -/

/-- The configuration options of `BrokerConfig` (config.py) that the
modelled code paths read.  `max_topic_length` is carried because the spec
names it; `broker.py` never reads it (see `process_publish`). -/
structure BrokerConfig where
  max_topic_length : Nat := 256
  max_topic_levels : Nat := 8
  max_payload_size : Nat := 4096
  max_queued_messages : Nat := 50
  max_inflight : Nat := 10
  max_retained_messages : Nat := 100
  retain_enabled : Bool := true
  qos2_enabled : Bool := true
  deriving Repr

/-- An observable action of the broker or router. -/
inductive Effect where
  | routePublish (topic payload : List Nat) (qos : Nat) (retain : Bool)
      (sender : Option String)
  | sendPublish (topic payload : List Nat) (qos : Nat) (packet_id : Option Nat)
  | sendPuback (packet_id : Nat)
  | sendPubrec (packet_id : Nat)
  | sendPubcomp (packet_id : Nat)
  | firePublishHook
  deriving DecidableEq, Repr

/-- The `ClientSession` fields (session.py) that the router reads and
writes. -/
structure RSession where
  client_id : String
  connected : Bool
  clean_session : Bool
  packet_id_counter : Nat
  queued_messages : List (List Nat × List Nat × Nat)
  tables : SessionTables
  deriving DecidableEq, Repr

/-- `ClientSession.next_packet_id` (session.py:79-92): increment, wrapping
from 65535 back to 1; returns the new counter value. -/
def next_packet_id (s : RSession) : RSession × Nat :=
  let c0 := s.packet_id_counter + 1
  let c := if 65535 < c0 then 1 else c0
  ({ s with packet_id_counter := c }, c)

/-- `ClientSession.queue_message` (session.py:157-170): FIFO-evict the
oldest entry when at the limit, then append.  (When `max_queued = 0` and
the queue is empty, Python `list.pop(0)` would raise; no modelled claim
reaches that corner.) -/
def queue_message (s : RSession) (topic payload : List Nat)
    (qos max_queued : Nat) : RSession :=
  let q := if max_queued ≤ s.queued_messages.length
           then s.queued_messages.drop 1 else s.queued_messages
  { s with queued_messages := q ++ [(topic, payload, qos)] }

/-- `QoSManager.get_inflight_count` (qos.py:207-209). -/
def get_inflight_count (t : SessionTables) : Nat :=
  t.pending_qos1.length + t.pending_qos2.length + t.pending_qos2_out.length

/-- `MessageRouter._send_to_subscriber` (router.py:45-84), with the
broker's `qos_manager` present (as `MQTTBroker` always wires it): QoS 0 is
sent untracked; QoS 1/2 are queued instead of sent when the inflight count
has reached `max_inflight`, otherwise sent with a fresh packet id and
tracked. -/
def send_to_subscriber (cfg : BrokerConfig) (s : RSession)
    (topic payload : List Nat) (effective_qos now : Nat) :
    RSession × List Effect :=
  if effective_qos = 0 then
    (s, [.sendPublish topic payload 0 none])
  else if effective_qos = 1 then
    if cfg.max_inflight ≤ get_inflight_count s.tables then
      (queue_message s topic payload effective_qos cfg.max_queued_messages, [])
    else
      let (s1, pid) := next_packet_id s
      ({ s1 with tables := track_outbound_qos1 s1.tables pid topic payload 1 now },
       [.sendPublish topic payload 1 (some pid)])
  else if effective_qos = 2 then
    if cfg.max_inflight ≤ get_inflight_count s.tables then
      (queue_message s topic payload effective_qos cfg.max_queued_messages, [])
    else
      let (s1, pid) := next_packet_id s
      ({ s1 with tables := track_outbound_qos2 s1.tables pid topic payload now },
       [.sendPublish topic payload 2 (some pid)])
  else (s, [])

/-- The per-subscriber body of `MessageRouter.route_publish`
(router.py:115-133): skip the sender, downgrade to
`min (publish qos) (granted qos)`, deliver when connected, queue for a
persistent offline session when the effective QoS is positive, and drop
otherwise. -/
def route_to_subscriber (cfg : BrokerConfig) (sessionOpt : Option RSession)
    (sender_id : Option String) (client_id : String) (granted_qos : Nat)
    (topic payload : List Nat) (qos now : Nat) :
    Option RSession × List Effect :=
  if some client_id = sender_id then (sessionOpt, [])
  else
    let effective_qos := min qos granted_qos
    match sessionOpt with
    | none => (none, [])
    | some session =>
      if session.connected then
        let r := send_to_subscriber cfg session topic payload effective_qos now
        (some r.1, r.2)
      else if ¬ session.clean_session ∧ 0 < effective_qos then
        (some (queue_message session topic payload effective_qos
                 cfg.max_queued_messages), [])
      else (some session, [])

/-! ## PUBLISH and PUBREL processing — `broker.py` -/

/-- `MessageContext` (broker.py:30-44). -/
structure MsgCtx where
  topic : List Nat
  payload : List Nat
  qos : Nat
  retain : Bool
  sender_id : String
  dropped : Bool
  deriving Repr

/-- A parsed PUBLISH packet (`packet.parse_publish` output): `packet_id`
is meaningful only for `qos > 0`, where the parser requires it. -/
structure PublishPkt where
  topic : List Nat
  payload : List Nat
  qos : Nat
  retain : Bool
  packet_id : Nat
  deriving DecidableEq, Repr

/-- The interceptor loop of `MQTTBroker._process_publish`
(broker.py:622-638): run each interceptor in registration order; stop
with `none` as soon as the context's dropped flag is set. -/
def run_interceptors : List (MsgCtx → MsgCtx) → MsgCtx → Option MsgCtx
  | [], ctx => some ctx
  | f :: rest, ctx =>
    let c := f ctx
    if c.dropped then none else run_interceptors rest c

/-- `topic_str.count('/') + 1` from the level check in
`MQTTBroker._process_publish` (broker.py:590-594); `/` is byte 47. -/
def topic_level_count (topic : List Nat) : Nat := topic.count 47 + 1

/-- `MQTTBroker._process_publish` (broker.py:567-675), after a successful
parse.  Returns the publisher's updated pending tables plus the effect
list.  Checks in code order: topic validation (note: called with the
validator's default `max_length = 256`, not `config.max_topic_length`),
level count, payload size, the `qos2_enabled` drop-with-PUBREC path,
`authorize_publish` drop-with-ACK, the interceptor pipeline (dropped ⇒
return with no further effects), then the per-QoS routing/ACK. -/
def process_publish (cfg : BrokerConfig)
    (auth : Option (String → List Nat → Bool))
    (interceptors : List (MsgCtx → MsgCtx)) (client_id : String)
    (tables : SessionTables) (pub : PublishPkt) (now : Nat) :
    SessionTables × List Effect :=
  if validate_topic_name pub.topic 256 = false then (tables, [])
  else if cfg.max_topic_levels < topic_level_count pub.topic then (tables, [])
  else if cfg.max_payload_size < pub.payload.length then (tables, [])
  else if pub.qos = 2 ∧ cfg.qos2_enabled = false then
    (tables, [.sendPubrec pub.packet_id])
  else if (match auth with
           | some authorize_publish => !(authorize_publish client_id pub.topic)
           | none => false) = true then
    (tables,
     if pub.qos = 1 then [.sendPuback pub.packet_id]
     else if pub.qos = 2 then [.sendPubrec pub.packet_id]
     else [])
  else
    match run_interceptors interceptors
        ⟨pub.topic, pub.payload, pub.qos, pub.retain, client_id, false⟩ with
    | none => (tables, [])
    | some ctx =>
      if ctx.qos = 0 then
        (tables, [.firePublishHook,
                  .routePublish ctx.topic ctx.payload ctx.qos ctx.retain
                    (some client_id)])
      else if ctx.qos = 1 then
        (tables, [.firePublishHook,
                  .routePublish ctx.topic ctx.payload ctx.qos ctx.retain
                    (some client_id),
                  .sendPuback pub.packet_id])
      else if ctx.qos = 2 then
        (track_inbound_qos2 tables pub.packet_id ctx.topic ctx.payload
           ctx.retain now,
         [.firePublishHook, .sendPubrec pub.packet_id])
      else (tables, [.firePublishHook])

/-- `MQTTBroker._process_pubrel` (broker.py:819-827): `handle_pubrel`,
route the returned message (at QoS 2, with the client as sender), then
always send PUBCOMP. -/
def process_pubrel (s : SessionTables) (client_id : String)
    (packet_id : Nat) : SessionTables × List Effect :=
  let r := handle_pubrel s packet_id
  match r.2 with
  | some (topic, payload, retain) =>
    (r.1, [.routePublish topic payload 2 retain (some client_id),
           .sendPubcomp packet_id])
  | none => (r.1, [.sendPubcomp packet_id])

/-! ## Topic tree — `topic.py`

`TopicNode` (topic.py:9-16): a trie node with a subscriber dict
(client-id → granted QoS), an optional retained entry
`(topic, payload, qos)` and a child dict keyed by level string.  The
child dict is modelled as an insertion-ordered association list
(`ChildList`); Python's lazy `children = None` and an empty dict behave
identically for every modelled operation. -/

mutual
inductive TopicNode : Type where
  | mk : List (String × Nat) → Option (String × List Nat × Nat) →
      ChildList → TopicNode
  deriving DecidableEq
inductive ChildList : Type where
  | nil : ChildList
  | cons : String → TopicNode → ChildList → ChildList
  deriving DecidableEq
end

def subsOf : TopicNode → List (String × Nat)
  | .mk s _ _ => s

def retainedOf : TopicNode → Option (String × List Nat × Nat)
  | .mk _ r _ => r

def childrenOf : TopicNode → ChildList
  | .mk _ _ c => c

/-- A freshly created `TopicNode()`. -/
def emptyNode : TopicNode := .mk [] none .nil

/-- Child-dict lookup (`children[level]` / `level in children`). -/
def clLookup (k : String) : ChildList → Option TopicNode
  | .nil => none
  | .cons k' n rest => if k = k' then some n else clLookup k rest

/-- Child-dict assignment (`children[level] = node`). -/
def clInsert (k : String) (v : TopicNode) : ChildList → ChildList
  | .nil => .cons k v .nil
  | .cons k' n rest =>
    if k = k' then .cons k v rest else .cons k' n (clInsert k v rest)

/-- Child-dict deletion (`del children[key]`), removing the first match. -/
def clRemove (k : String) : ChildList → ChildList
  | .nil => .nil
  | .cons k' n rest => if k = k' then rest else .cons k' n (clRemove k rest)

/-- Python truthiness of the child dict: `not node.children`. -/
def clIsEmpty : ChildList → Bool
  | .nil => true
  | .cons _ _ _ => false

mutual
/-- Size of a node (for fuel bounds): one plus the sizes of all
descendants. -/
def nodeSize : TopicNode → Nat
  | .mk _ _ cs => 1 + clSize cs
def clSize : ChildList → Nat
  | .nil => 0
  | .cons _ n rest => nodeSize n + clSize rest
end

mutual
/-- `TopicTree.get_retained_count` (topic.py:304-323): number of nodes
holding a retained entry (the DFS order of the source is irrelevant to
the sum). -/
def retained_count : TopicNode → Nat
  | .mk _ r cs => (if r.isSome then 1 else 0) + clRetainedCount cs
def clRetainedCount : ChildList → Nat
  | .nil => 0
  | .cons _ n rest => retained_count n + clRetainedCount rest
end

/-- `TopicTree._split_topic` (topic.py:42-46): Python `str.split('/')`. -/
def splitAux : List Char → List Char → List String
  | [], acc => [String.mk acc.reverse]
  | c :: rest, acc =>
    if c = '/' then String.mk acc.reverse :: splitAux rest []
    else splitAux rest (c :: acc)

def splitTopic (s : String) : List String := splitAux s.data []

/-- Python `level.startswith('$')`. -/
def startsWithDollar (s : String) : Bool :=
  match s.data with
  | c :: _ => c = '$'
  | [] => false

/-- `TopicTree.subscribe` (topic.py:48-68): navigate/create the node for
each level, then set `subscribers[client_id] = qos` at the leaf. -/
def tree_subscribe : List String → TopicNode → String → Nat → TopicNode
  | [], .mk subs ret cs, client_id, qos =>
    .mk (alInsert client_id qos subs) ret cs
  | l :: rest, .mk subs ret cs, client_id, qos =>
    let child := (clLookup l cs).getD emptyNode
    .mk subs ret (clInsert l (tree_subscribe rest child client_id qos) cs)

/-- `TopicTree.set_retained` (topic.py:170-197): navigate/create nodes,
then clear (empty payload) or set the retained entry at the leaf. -/
def set_retained : List String → TopicNode → String → List Nat → Nat →
    TopicNode
  | [], .mk subs _ cs, topic_name, payload, qos =>
    .mk subs (if payload.isEmpty then none else some (topic_name, payload, qos))
      cs
  | l :: rest, .mk subs ret cs, topic_name, payload, qos =>
    let child := (clLookup l cs).getD emptyNode
    .mk subs ret (clInsert l (set_retained rest child topic_name payload qos) cs)

/-- `TopicTree.get_retained` (topic.py:199-217). -/
def get_retained : List String → TopicNode → Option (String × List Nat × Nat)
  | [], t => retainedOf t
  | l :: rest, t =>
    match clLookup l (childrenOf t) with
    | none => none
    | some c => get_retained rest c

/-- `result.update(d)` on the match result dict: assign every pair of `d`
in iteration order. -/
def dictUpdate (res upd : List (String × Nat)) : List (String × Nat) :=
  upd.foldl (fun r kv => alInsert kv.1 kv.2 r) res

/-- Fuel bound for the `match` work list: each stack entry `(n, i)`
weighs `nodeSize n * 3 ^ (levels - i)`. -/
def matchWeight (L : Nat) : List (TopicNode × Nat) → Nat
  | [] => 0
  | (n, i) :: rest => nodeSize n * 3 ^ (L - i) + matchWeight L rest

/-- One iteration of the `TopicTree.match` work loop (the body of the
`while stack` loop, topic.py:135-166), mapping the popped entry `(n, i)`,
the remaining stack and the result dict to the new stack and result.  The
Python stack's top is the list head; pushes are conses (the source
appends the exact child before the `+` child, so the `+` child is popped
first).  At a fully matched index the node's subscribers and those of a
`#` child are collected; otherwise the exact child is pushed, and —
unless the topic is `$`-prefixed at level 0 — the `+` child is pushed and
a `#` child's subscribers are collected.  An index beyond the level count
never occurs from the entry point (Python would raise IndexError). -/
def matchStep (levels : List String) (n : TopicNode) (i : Nat)
    (rest : List (TopicNode × Nat)) (result : List (String × Nat)) :
    List (TopicNode × Nat) × List (String × Nat) :=
  if i = levels.length then
    let r1 := dictUpdate result (subsOf n)
    let r2 := match clLookup "#" (childrenOf n) with
      | some c => dictUpdate r1 (subsOf c)
      | none => r1
    (rest, r2)
  else if levels.length < i then (rest, result)
  else
    let cur := levels.getD i ""
    let isSys : Bool := (i == 0) && startsWithDollar cur
    if clIsEmpty (childrenOf n) then (rest, result)
    else
      let cs := childrenOf n
      let st1 := match clLookup cur cs with
        | some c => (c, i + 1) :: rest
        | none => rest
      let st2 := if isSys then st1 else
        match clLookup "+" cs with
        | some c => (c, i + 1) :: st1
        | none => st1
      let r2 := if isSys then result else
        match clLookup "#" cs with
        | some c => dictUpdate result (subsOf c)
        | none => result
      (st2, r2)

/-- The `TopicTree.match` work loop (topic.py:133-166): pop the top entry
and apply `matchStep` until the stack is empty.  `fuel` bounds the
iteration count; `matchWeight` always suffices (proved below). -/
def matchGo (levels : List String) :
    Nat → List (TopicNode × Nat) → List (String × Nat) → List (String × Nat)
  | _, [], result => result
  | 0, _ :: _, result => result
  | fuel + 1, (n, i) :: rest, result =>
    let s := matchStep levels n i rest result
    matchGo levels fuel s.1 s.2

/-- `TopicTree.match` (topic.py:119-168): subscriber dict for a concrete
topic name. -/
def topic_tree_match (t : TopicNode) (topic : String) :
    List (String × Nat) :=
  let levels := splitTopic topic
  matchGo levels (matchWeight levels.length [(t, 0)]) [(t, 0)] []

/-- The given tree with the `+` and `#` children of the root removed:
the comparison tree for the `$`-topic isolation claim. -/
def remove_root_wildcards : TopicNode → TopicNode
  | .mk subs ret cs => .mk subs ret (clRemove "+" (clRemove "#" cs))

/-! ## Retained store — `retained.py` -/

/-- `RetainedStore` state: the backing tree plus `_lru_order`
(most-recently-set at the end). -/
structure RetainedStoreState where
  tree : TopicNode
  lru_order : List String
  deriving DecidableEq

/-- `RetainedStore.set` (retained.py:42-81): disabled ⇒ `false`; empty
payload clears the slot and the LRU entry; otherwise, if the topic is not
yet present and the count is at the cap, evict the LRU head (clear its
slot), then set the entry and move the topic to the LRU tail
(`_touch_lru` = remove-first + append). -/
def retained_store_set (cfg : BrokerConfig) (st : RetainedStoreState)
    (topic : String) (payload : List Nat) (qos : Nat) :
    RetainedStoreState × Bool :=
  if cfg.retain_enabled = false then (st, false)
  else if payload.isEmpty then
    ({ tree := set_retained (splitTopic topic) st.tree topic [] 0,
       lru_order := st.lru_order.erase topic }, true)
  else
    let st1 :=
      if (get_retained (splitTopic topic) st.tree).isNone
         ∧ cfg.max_retained_messages ≤ retained_count st.tree then
        match st.lru_order with
        | [] => st
        | evict_key :: lru_rest =>
          { tree := set_retained (splitTopic evict_key) st.tree evict_key [] 0,
            lru_order := lru_rest }
      else st
    ({ tree := set_retained (splitTopic topic) st1.tree topic payload qos,
       lru_order := (st1.lru_order.erase topic) ++ [topic] }, true)

/-- The inbound QoS 2 state after a QoS 2 PUBLISH with packet-id 7 has
been tracked. -/
def c2_tables : SessionTables :=
  track_inbound_qos2 ⟨[], [], []⟩ 7 [97] [98] false 0

/-- The reachable-state invariant of `RetainedStore`: every LRU key has a
retained entry in the tree, and the LRU list length equals the retained
count. -/
def store_inv (st : RetainedStoreState) : Prop :=
  (∀ k ∈ st.lru_order, (get_retained (splitTopic k) st.tree).isSome = true) ∧
  st.lru_order.length = retained_count st.tree

example : splitTopic "home/kitchen/temp" = ["home", "kitchen", "temp"] := by
  decide

example : retained_count (set_retained (splitTopic "a/b") emptyNode "a/b"
    [1, 2] 0) = 1 := by decide

example :
    topic_tree_match (tree_subscribe (splitTopic "sensor/+") emptyNode "c1" 1)
      "sensor/temp" = [("c1", 1)] := by decide

example :
    topic_tree_match (tree_subscribe (splitTopic "#") emptyNode "c1" 0)
      "$SYS/broker/uptime" = [] := by decide

/-! ## Lemmas: remaining-length codec -/

theorem land127_of_lt (d : Nat) (h : d < 128) : d &&& 127 = d := by
  have h' : ∀ x : Fin 128, x.val &&& 127 = x.val := by decide
  exact h' ⟨d, h⟩

theorem land128_of_lt (d : Nat) (h : d < 128) : d &&& 128 = 0 := by
  have h' : ∀ x : Fin 128, x.val &&& 128 = 0 := by decide
  exact h' ⟨d, h⟩

theorem or128_land127 (d : Nat) (h : d < 128) : (d ||| 128) &&& 127 = d := by
  have h' : ∀ x : Fin 128, (x.val ||| 128) &&& 127 = x.val := by decide
  exact h' ⟨d, h⟩

theorem or128_land128 (d : Nat) (h : d < 128) : (d ||| 128) &&& 128 = 128 := by
  have h' : ∀ x : Fin 128, (x.val ||| 128) &&& 128 = 128 := by decide
  exact h' ⟨d, h⟩

theorem encRLAux_length (fuel : Nat) : ∀ n, n < 128 ^ fuel →
    (encRLAux fuel n).length ≤ fuel := by
  induction fuel with
  | zero => intro n hn; interval_cases n; simp [encRLAux]
  | succ k ih =>
    intro n hn
    by_cases hrest : 0 < n / 128
    · have hlt : n / 128 < 128 ^ k := by
        rw [Nat.div_lt_iff_lt_mul (by norm_num)]
        calc n < 128 ^ (k + 1) := hn
        _ = 128 ^ k * 128 := by ring
      simp only [encRLAux, if_pos hrest, List.length_cons]
      exact Nat.succ_le_succ (ih _ hlt)
    · simp [encRLAux, hrest]

theorem decRL_encRL (fuel : Nat) :
    ∀ n count multiplier value, n < 128 ^ fuel → 1 ≤ fuel →
      count + (encRLAux fuel n).length ≤ 4 →
      decRLAux (encRLAux fuel n) count multiplier value
        = some (value + n * multiplier, count + (encRLAux fuel n).length) := by
  induction fuel with
  | zero => intro n _ _ _ _ h1 _; omega
  | succ k ih =>
    intro n count multiplier value hn _ hc4
    by_cases hrest : 0 < n / 128
    · have hk1 : 1 ≤ k := by
        by_contra hk
        have hk0 : k = 0 := by omega
        subst hk0
        have : n < 128 := by simpa using hn
        omega
      have hlt : n / 128 < 128 ^ k := by
        rw [Nat.div_lt_iff_lt_mul (by norm_num)]
        calc n < 128 ^ (k + 1) := hn
        _ = 128 ^ k * 128 := by ring
      have hmod : n % 128 < 128 := Nat.mod_lt _ (by norm_num)
      have henc : encRLAux (k + 1) n
          = (n % 128 ||| 128) :: encRLAux k (n / 128) := by
        simp [encRLAux, hrest]
      rw [henc]
      have hc4' : count + (encRLAux k (n / 128)).length + 1 ≤ 4 := by
        rw [henc] at hc4; simp at hc4; omega
      have hstep : decRLAux ((n % 128 ||| 128) :: encRLAux k (n / 128))
          count multiplier value
          = decRLAux (encRLAux k (n / 128)) (count + 1) (multiplier * 128)
              (value + (n % 128) * multiplier) := by
        have hne : (n % 128 ||| 128) &&& 128 = 0 → False := by
          rw [or128_land128 _ hmod]; omega
        simp only [decRLAux]
        rw [if_neg (by omega), or128_land127 _ hmod, if_neg hne]
      rw [hstep, ih (n / 128) (count + 1) (multiplier * 128)
            (value + (n % 128) * multiplier) hlt hk1 (by omega)]
      have harith : value + n % 128 * multiplier + n / 128 * (multiplier * 128)
          = value + n * multiplier := by
        have hsplit : n % 128 + 128 * (n / 128) = n := Nat.mod_add_div n 128
        calc value + n % 128 * multiplier + n / 128 * (multiplier * 128)
            = value + (n % 128 + 128 * (n / 128)) * multiplier := by ring
        _ = value + n * multiplier := by rw [hsplit]
      rw [harith]
      simp [List.length_cons]
      omega
    · have hmod : n % 128 = n := by
        have : n < 128 := by omega
        exact Nat.mod_eq_of_lt this
      have henc : encRLAux (k + 1) n = [n % 128] := by
        simp [encRLAux, hrest]
      rw [henc]
      have hlt : n % 128 < 128 := Nat.mod_lt _ (by norm_num)
      simp only [decRLAux]
      rw [if_neg (by rw [henc] at hc4; simp at hc4; omega),
          land127_of_lt _ hlt, if_pos (land128_of_lt _ hlt)]
      rw [hmod]
      simp

/-- C9: for every n in [0, 268435455] the remaining-length encoding
decodes back to (n, bytes-consumed), and for every byte string of at most
65535 bytes the length-prefixed encoding decodes back to the string with
the offset advanced past it (utils.py:11-91). -/
theorem c9_codec_roundtrips (n : Nat) (s : List Nat)
    (hn : n ≤ 268435455) (hs : s.length ≤ 65535) :
    (∃ bs, encode_remaining_length n = some bs ∧
      decode_remaining_length bs = some (n, bs.length)) ∧
    (∃ es, encode_utf8_string s = some es ∧
      decode_utf8_string es = some (s, 2 + s.length)) := by
  constructor
  · refine ⟨encRLAux 4 n, ?_, ?_⟩
    · simp [encode_remaining_length]; omega
    · have hn4 : n < 128 ^ 4 := by norm_num; omega
      have hlen : (encRLAux 4 n).length ≤ 4 := encRLAux_length 4 n hn4
      have h := decRL_encRL 4 n 0 1 0 hn4 (by norm_num) (by omega)
      simpa [decode_remaining_length] using h
  · refine ⟨s.length / 256 :: s.length % 256 :: s, ?_, ?_⟩
    · simp [encode_utf8_string]; omega
    · simp only [decode_utf8_string]
      have hlen : s.length / 256 * 256 + s.length % 256 = s.length := by
        have := Nat.div_add_mod s.length 256
        omega
      rw [hlen]
      simp

/-- Closed witness for C9 at n = 300 and s = "hi" (bytes 104, 105). -/
theorem c9_codec_roundtrips_witness :
    (∃ bs, encode_remaining_length 300 = some bs ∧
      decode_remaining_length bs = some (300, bs.length)) ∧
    (∃ es, encode_utf8_string [104, 105] = some es ∧
      decode_utf8_string es = some ([104, 105], 2 + [104, 105].length)) :=
  c9_codec_roundtrips 300 [104, 105] (by norm_num) (by norm_num)

/-! ## Lemmas: association lists -/

theorem alLookup_eq_none_of_not_mem {α β : Type} [DecidableEq α] (k : α)
    (l : List (α × β)) (h : ¬ k ∈ alKeys l) :
    alLookup k l = none := by
  induction l with
  | nil => simp [alLookup]
  | cons hd tl ih =>
    obtain ⟨k', v'⟩ := hd
    simp only [alKeys, List.map_cons, List.mem_cons] at h
    push_neg at h
    simp only [alLookup, if_neg h.1]
    exact ih h.2

theorem alLookup_alErase_self {α β : Type} [DecidableEq α] (k : α)
    (l : List (α × β)) (h : (alKeys l).Nodup) :
    alLookup k (alErase k l) = none := by
  induction l with
  | nil => simp [alErase, alLookup]
  | cons hd tl ih =>
    obtain ⟨k', v'⟩ := hd
    simp only [alKeys, List.map_cons, List.nodup_cons] at h
    by_cases hk : k = k'
    · subst hk
      simp only [alErase, if_pos rfl]
      exact alLookup_eq_none_of_not_mem k tl h.1
    · simp only [alErase, if_neg hk, alLookup, if_neg hk]
      exact ih h.2

theorem alLookup_alErase_ne {α β : Type} [DecidableEq α] (k q : α)
    (l : List (α × β)) (h : ¬ q = k) :
    alLookup q (alErase k l) = alLookup q l := by
  induction l with
  | nil => simp [alErase, alLookup]
  | cons hd tl ih =>
    obtain ⟨k', v'⟩ := hd
    by_cases hk : k = k'
    · subst hk
      simp [alErase, alLookup, if_neg h]
    · simp only [alErase, if_neg hk, alLookup]
      by_cases hq : q = k'
      · simp [hq]
      · simp [if_neg hq, ih]

theorem alErase_of_lookup_none {α β : Type} [DecidableEq α] (k : α)
    (l : List (α × β)) (h : alLookup k l = none) :
    alErase k l = l := by
  induction l with
  | nil => simp [alErase]
  | cons hd tl ih =>
    obtain ⟨k', v'⟩ := hd
    simp only [alLookup] at h
    by_cases hk : k = k'
    · simp [if_pos hk] at h
    · simp only [alErase, if_neg hk]
      rw [ih (by simpa [if_neg hk] using h)]

/-! ## Claims C4 and C3: PUBACK / PUBCOMP frame effects -/

/-- C4: handle_puback leaves both QoS 2 tables untouched, removes at most
the matching `pending_qos1` entry, and returns true exactly when such an
entry existed (qos.py:90-95). -/
theorem c4_puback_frame (s : SessionTables) (p : Nat)
    (h : (alKeys s.pending_qos1).Nodup) :
    (handle_puback s p).1.pending_qos2 = s.pending_qos2 ∧
    (handle_puback s p).1.pending_qos2_out = s.pending_qos2_out ∧
    alLookup p (handle_puback s p).1.pending_qos1 = none ∧
    (∀ q, ¬ q = p → alLookup q (handle_puback s p).1.pending_qos1
      = alLookup q s.pending_qos1) ∧
    ((handle_puback s p).2 = true ↔ (alLookup p s.pending_qos1).isSome) := by
  by_cases hp : (alLookup p s.pending_qos1).isSome = true
  · have heq : handle_puback s p
        = ({ s with pending_qos1 := alErase p s.pending_qos1 }, true) := by
      unfold handle_puback; rw [if_pos hp]
    rw [heq]
    exact ⟨rfl, rfl, alLookup_alErase_self p _ h,
      fun q hq => alLookup_alErase_ne p q _ hq, by simp [hp]⟩
  · have heq : handle_puback s p = (s, false) := by
      unfold handle_puback; rw [if_neg hp]
    rw [heq]
    have hnone : alLookup p s.pending_qos1 = none := by
      cases hcase : alLookup p s.pending_qos1 with
      | none => rfl
      | some v => rw [hcase] at hp; simp at hp
    exact ⟨rfl, rfl, hnone, fun q _ => rfl, by simp [hnone]⟩

/-- Closed witness for C4 at a session holding QoS 1 entry 1 and inbound
QoS 2 entry 1. -/
theorem c4_puback_frame_witness :
    (handle_puback ⟨[(1, ⟨1, [97], [98], 1, 0, 0⟩)],
        [(1, ⟨1, [97], [98], false, 0, 0⟩)], []⟩ 1).1.pending_qos2
      = [(1, ⟨1, [97], [98], false, 0, 0⟩)] ∧
    alLookup 1 (handle_puback ⟨[(1, ⟨1, [97], [98], 1, 0, 0⟩)],
        [(1, ⟨1, [97], [98], false, 0, 0⟩)], []⟩ 1).1.pending_qos1 = none := by
  have h := c4_puback_frame ⟨[(1, ⟨1, [97], [98], 1, 0, 0⟩)],
      [(1, ⟨1, [97], [98], false, 0, 0⟩)], []⟩ 1 (by decide)
  exact ⟨h.1, h.2.2.1⟩

/-- Counterexample to C3 as stated: with packet-id 1 pending only in the
inbound QoS 2 table, handle_pubcomp deletes the inbound entry, so the
inbound table is not left unchanged (qos.py:141-144). -/
theorem c3_counterexample :
    ¬ (handle_pubcomp ⟨[], [(1, ⟨1, [97], [98], false, 1, 0⟩)], []⟩ 1).1.pending_qos2
      = ([(1, ⟨1, [97], [98], false, 1, 0⟩)] :
          List (Nat × QoS2InEntry)) := by decide

/-- C3 amended: handle_pubcomp never touches `pending_qos1`; when the
packet-id is pending in `pending_qos2_out` it removes that entry and
leaves the inbound table unchanged; otherwise it leaves the outbound
table unchanged and also deletes a matching inbound entry if one exists
(qos.py:135-146). -/
theorem c3_pubcomp_frame (s : SessionTables) (p : Nat) :
    (handle_pubcomp s p).1.pending_qos1 = s.pending_qos1 ∧
    ((alLookup p s.pending_qos2_out).isSome = true →
      (handle_pubcomp s p).1.pending_qos2 = s.pending_qos2 ∧
      (handle_pubcomp s p).1.pending_qos2_out = alErase p s.pending_qos2_out) ∧
    ((alLookup p s.pending_qos2_out).isSome = false →
      (handle_pubcomp s p).1.pending_qos2_out = s.pending_qos2_out ∧
      (handle_pubcomp s p).1.pending_qos2 = alErase p s.pending_qos2) := by
  by_cases hout : (alLookup p s.pending_qos2_out).isSome = true
  · have heq : handle_pubcomp s p
        = ({ s with pending_qos2_out := alErase p s.pending_qos2_out }, true) := by
      unfold handle_pubcomp; rw [if_pos hout]
    rw [heq]
    exact ⟨rfl, fun _ => ⟨rfl, rfl⟩,
      fun hfalse => by rw [hout] at hfalse; cases hfalse⟩
  · by_cases hin : (alLookup p s.pending_qos2).isSome = true
    · have heq : handle_pubcomp s p
          = ({ s with pending_qos2 := alErase p s.pending_qos2 }, true) := by
        unfold handle_pubcomp; rw [if_neg hout, if_pos hin]
      rw [heq]
      exact ⟨rfl, fun htrue => absurd htrue hout, fun _ => ⟨rfl, rfl⟩⟩
    · have heq : handle_pubcomp s p = (s, false) := by
        unfold handle_pubcomp; rw [if_neg hout, if_neg hin]
      rw [heq]
      have hnone : alLookup p s.pending_qos2 = none := by
        cases hcase : alLookup p s.pending_qos2 with
        | none => rfl
        | some v => rw [hcase] at hin; simp at hin
      refine ⟨rfl, fun htrue => absurd htrue hout, fun _ => ⟨rfl, ?_⟩⟩
      rw [alErase_of_lookup_none p _ hnone]

/-- Closed witness for C3 amended: both the outbound-present and
outbound-absent branches at concrete sessions. -/
theorem c3_pubcomp_frame_witness :
    (handle_pubcomp ⟨[], [], [(1, ⟨1, [97], [98], 1, 0, 0⟩)]⟩ 1).1.pending_qos2
      = [] ∧
    (handle_pubcomp ⟨[], [(1, ⟨1, [97], [98], false, 1, 0⟩)], []⟩ 1).1.pending_qos2
      = alErase 1 [(1, ⟨1, [97], [98], false, 1, 0⟩)] := by
  have h1 := (c3_pubcomp_frame ⟨[], [], [(1, ⟨1, [97], [98], 1, 0, 0⟩)]⟩ 1).2.1
    (by decide)
  have h2 := (c3_pubcomp_frame ⟨[], [(1, ⟨1, [97], [98], false, 1, 0⟩)], []⟩ 1).2.2
    (by decide)
  exact ⟨h1.1, h2.2⟩

/-! ## Claim C2: duplicate PUBREL re-routes the message -/

/-- C2 evaluated at the failing input: after the first PUBREL is handled
(message routed, PUBCOMP sent), a second PUBREL for the same packet-id
routes the very same message to subscribers again — the broker re-delivers
a completed inbound QoS 2 message (qos.py:104-113, broker.py:819-827). -/
theorem c2_duplicate_pubrel_reroutes :
    (process_pubrel c2_tables "pub" 7).2
      = [.routePublish [97] [98] 2 false (some "pub"), .sendPubcomp 7] ∧
    (process_pubrel (process_pubrel c2_tables "pub" 7).1 "pub" 7).2
      = [.routePublish [97] [98] 2 false (some "pub"), .sendPubcomp 7] := by
  decide

/-! ## Claim C1: oversize payload is dropped with no ACK -/

/-- C1 evaluated at the failing input: with `max_payload_size = 10`, an
11-byte QoS 1 PUBLISH produces no effect at all — the message is dropped
but no PUBACK is sent; likewise no PUBREC for QoS 2 (broker.py:596-599
returns before any ACK). -/
theorem c1_oversize_drops_without_ack :
    process_publish { max_payload_size := 10 } none [] "c" ⟨[], [], []⟩
      ⟨[97], List.replicate 11 120, 1, false, 7⟩ 0 = (⟨[], [], []⟩, []) ∧
    process_publish { max_payload_size := 10 } none [] "c" ⟨[], [], []⟩
      ⟨[97], List.replicate 11 120, 2, false, 7⟩ 0 = (⟨[], [], []⟩, []) := by
  decide

/-! ## Claim C8: configured max_topic_length is not enforced -/

/-- C8 evaluated at the failing input: with `max_topic_length = 10`, a
20-byte topic is still routed, because `_process_publish` calls
`validate_topic_name` with the validator's hard-coded default of 256
instead of `config.max_topic_length` (broker.py:584, utils.py:93). -/
theorem c8_topic_length_config_ignored :
    10 < (List.replicate 20 97).length ∧
    process_publish { max_topic_length := 10 } none [] "c" ⟨[], [], []⟩
      ⟨List.replicate 20 97, [1], 0, false, 0⟩ 0
      = (⟨[], [], []⟩,
         [.firePublishHook,
          .routePublish (List.replicate 20 97) [1] 0 false (some "c")]) := by
  decide

/-! ## Claim C10: an interceptor drop suppresses routing and ACKs -/

/-- C10: whenever a PUBLISH passes the pre-pipeline checks and the
interceptor pipeline ends with the dropped flag set, `_process_publish`
returns with no effect whatsoever: nothing is routed, no PUBACK or PUBREC
is sent, and no inbound QoS 2 entry is tracked (broker.py:622-638). -/
theorem c10_interceptor_drop_suppresses_all (cfg : BrokerConfig)
    (auth : Option (String → List Nat → Bool))
    (ints : List (MsgCtx → MsgCtx)) (client_id : String)
    (tables : SessionTables) (pub : PublishPkt) (now : Nat)
    (h1 : validate_topic_name pub.topic 256 = true)
    (h2 : topic_level_count pub.topic ≤ cfg.max_topic_levels)
    (h3 : pub.payload.length ≤ cfg.max_payload_size)
    (h4 : pub.qos = 2 → cfg.qos2_enabled = true)
    (h5 : ∀ f, auth = some f → f client_id pub.topic = true)
    (h6 : run_interceptors ints
      ⟨pub.topic, pub.payload, pub.qos, pub.retain, client_id, false⟩ = none) :
    process_publish cfg auth ints client_id tables pub now = (tables, []) := by
  unfold process_publish
  rw [if_neg (by simp [h1]), if_neg (by omega), if_neg (by omega),
      if_neg (by rintro ⟨hq2, hqe⟩; rw [h4 hq2] at hqe; cases hqe),
      if_neg ?_, h6]
  match auth with
  | none => simp
  | some f => simp [h5 f rfl]

/-- Closed witness for C10: a single dropping interceptor on a QoS 1
PUBLISH yields no effects. -/
theorem c10_interceptor_drop_witness :
    process_publish {} none [fun c => { c with dropped := true }] "c"
      ⟨[], [], []⟩ ⟨[97], [98], 1, false, 5⟩ 0 = (⟨[], [], []⟩, []) :=
  c10_interceptor_drop_suppresses_all {} none
    [fun c => { c with dropped := true }] "c" ⟨[], [], []⟩
    ⟨[97], [98], 1, false, 5⟩ 0 (by decide) (by decide) (by decide)
    (by intro h; rfl) (by intro f h; cases h) rfl

/-! ## Claim C6: QoS downgrade and no QoS 0 queueing -/

theorem queue_message_mem (s : RSession) (topic payload : List Nat)
    (qos mq : Nat) :
    ∀ m ∈ (queue_message s topic payload qos mq).queued_messages,
      m ∈ s.queued_messages ∨ m.2.2 = qos := by
  intro m hm
  unfold queue_message at hm
  simp only [List.mem_append, List.mem_singleton] at hm
  rcases hm with hm | hm
  · by_cases hfull : mq ≤ s.queued_messages.length
    · rw [if_pos hfull] at hm
      exact Or.inl (List.mem_of_mem_drop hm)
    · rw [if_neg hfull] at hm
      exact Or.inl hm
  · subst hm; exact Or.inr rfl

theorem send_to_subscriber_facts (cfg : BrokerConfig) (s : RSession)
    (topic payload : List Nat) (eff now : Nat) :
    (∀ t p q pid, Effect.sendPublish t p q pid ∈
        (send_to_subscriber cfg s topic payload eff now).2 → q = eff) ∧
    (∀ m ∈ (send_to_subscriber cfg s topic payload eff now).1.queued_messages,
      m ∈ s.queued_messages ∨ m.2.2 = eff) := by
  unfold send_to_subscriber
  by_cases h0 : eff = 0
  · subst h0
    rw [if_pos rfl]
    constructor
    · intro t p q pid hm
      simp only [List.mem_singleton] at hm
      cases hm; rfl
    · intro m hm; exact Or.inl hm
  · rw [if_neg h0]
    by_cases h1 : eff = 1
    · subst h1
      rw [if_pos rfl]
      by_cases hfull : cfg.max_inflight ≤ get_inflight_count s.tables
      · rw [if_pos hfull]
        exact ⟨fun t p q pid hm => absurd hm (List.not_mem_nil _),
          queue_message_mem s topic payload 1 cfg.max_queued_messages⟩
      · rw [if_neg hfull]
        constructor
        · intro t p q pid hm
          simp only [List.mem_singleton] at hm
          cases hm; rfl
        · intro m hm; exact Or.inl hm
    · rw [if_neg h1]
      by_cases h2 : eff = 2
      · subst h2
        rw [if_pos rfl]
        by_cases hfull : cfg.max_inflight ≤ get_inflight_count s.tables
        · rw [if_pos hfull]
          exact ⟨fun t p q pid hm => absurd hm (List.not_mem_nil _),
            queue_message_mem s topic payload 2 cfg.max_queued_messages⟩
        · rw [if_neg hfull]
          constructor
          · intro t p q pid hm
            simp only [List.mem_singleton] at hm
            cases hm; rfl
          · intro m hm; exact Or.inl hm
      · rw [if_neg h2]
        exact ⟨fun t p q pid hm => absurd hm (List.not_mem_nil _),
          fun m hm => Or.inl hm⟩

/-- C6: every PUBLISH the router hands to a matching subscriber is sent or
queued at exactly `min (publish qos) (granted qos)`, never higher; and a
message whose effective QoS is 0 is never appended to a disconnected
session's offline queue (router.py:45-133). -/
theorem c6_router_downgrade (cfg : BrokerConfig) (s : RSession)
    (sender_id : Option String) (client_id : String) (granted_qos : Nat)
    (topic payload : List Nat) (qos now : Nat) :
    (∀ t p q pid, Effect.sendPublish t p q pid ∈
        (route_to_subscriber cfg (some s) sender_id client_id granted_qos
          topic payload qos now).2 → q = min qos granted_qos) ∧
    (∀ s', (route_to_subscriber cfg (some s) sender_id client_id granted_qos
        topic payload qos now).1 = some s' →
      ∀ m ∈ s'.queued_messages,
        m ∈ s.queued_messages ∨ m.2.2 = min qos granted_qos) ∧
    (s.connected = false → min qos granted_qos = 0 →
      (route_to_subscriber cfg (some s) sender_id client_id granted_qos
        topic payload qos now).1 = some s ∧
      (route_to_subscriber cfg (some s) sender_id client_id granted_qos
        topic payload qos now).2 = []) := by
  by_cases hsend : some client_id = sender_id
  · have heq : route_to_subscriber cfg (some s) sender_id client_id granted_qos
        topic payload qos now = (some s, []) := by
      unfold route_to_subscriber; rw [if_pos hsend]
    rw [heq]
    refine ⟨fun t p q pid hm => absurd hm (List.not_mem_nil _), ?_,
      fun _ _ => ⟨rfl, rfl⟩⟩
    intro s' hs' m hm
    cases hs'; exact Or.inl hm
  · by_cases hconn : s.connected = true
    · have heq : route_to_subscriber cfg (some s) sender_id client_id
          granted_qos topic payload qos now
          = (some (send_to_subscriber cfg s topic payload
              (min qos granted_qos) now).1,
             (send_to_subscriber cfg s topic payload
              (min qos granted_qos) now).2) := by
        unfold route_to_subscriber
        rw [if_neg hsend]
        simp only [if_pos hconn]
      rw [heq]
      have hfacts := send_to_subscriber_facts cfg s topic payload
        (min qos granted_qos) now
      refine ⟨hfacts.1, ?_, fun hdis _ => by rw [hconn] at hdis; cases hdis⟩
      intro s' hs' m hm
      cases hs'; exact hfacts.2 m hm
    · have hconnf : s.connected = false := by
        cases hc : s.connected
        · rfl
        · exact absurd hc hconn
      by_cases hqueue : ¬ s.clean_session ∧ 0 < min qos granted_qos
      · have heq : route_to_subscriber cfg (some s) sender_id client_id
            granted_qos topic payload qos now
            = (some (queue_message s topic payload (min qos granted_qos)
                cfg.max_queued_messages), []) := by
          unfold route_to_subscriber
          rw [if_neg hsend]
          simp only [hconnf, Bool.false_eq_true, if_false, if_pos hqueue]
        rw [heq]
        refine ⟨fun t p q pid hm => absurd hm (List.not_mem_nil _), ?_,
          fun _ h0 => by omega⟩
        intro s' hs' m hm
        cases hs'
        exact queue_message_mem s topic payload (min qos granted_qos)
          cfg.max_queued_messages m hm
      · have heq : route_to_subscriber cfg (some s) sender_id client_id
            granted_qos topic payload qos now = (some s, []) := by
          unfold route_to_subscriber
          rw [if_neg hsend]
          simp only [hconnf, Bool.false_eq_true, if_false, if_neg hqueue]
        rw [heq]
        refine ⟨fun t p q pid hm => absurd hm (List.not_mem_nil _), ?_,
          fun _ _ => ⟨rfl, rfl⟩⟩
        intro s' hs' m hm
        cases hs'; exact Or.inl hm

/-- Closed witness for C6: a disconnected persistent subscriber granted
QoS 2 receiving a QoS 1 publish gets it queued at QoS 1 = min 1 2. -/
theorem c6_router_downgrade_witness :
    ∀ m ∈ ((route_to_subscriber {} (some ⟨"sub", false, false, 0, [], ⟨[], [], []⟩⟩)
        (some "pub") "sub" 2 [97] [98] 1 0).1.getD
          ⟨"sub", false, false, 0, [], ⟨[], [], []⟩⟩).queued_messages,
      m ∈ (⟨"sub", false, false, 0, [], ⟨[], [], []⟩⟩ : RSession).queued_messages
        ∨ m.2.2 = min 1 2 := by
  have h := (c6_router_downgrade {} ⟨"sub", false, false, 0, [], ⟨[], [], []⟩⟩
    (some "pub") "sub" 2 [97] [98] 1 0).2.1
  intro m hm
  exact h _ rfl m hm

/-! ## Lemmas: topic-tree match termination and fuel independence -/

theorem nodeSize_pos (n : TopicNode) : 1 ≤ nodeSize n := by
  cases n with
  | mk subs ret cs => simp [nodeSize]

theorem nodeSize_children (n : TopicNode) :
    nodeSize n = 1 + clSize (childrenOf n) := by
  cases n with
  | mk subs ret cs => rfl

theorem clLookup_nodeSize (k : String) :
    ∀ cs c, clLookup k cs = some c → nodeSize c ≤ clSize cs
  | .nil, c, h => by cases h
  | .cons k' n rest, c, h => by
    unfold clLookup at h
    by_cases hk : k = k'
    · rw [if_pos hk] at h
      cases h
      show nodeSize n ≤ nodeSize n + clSize rest
      omega
    · rw [if_neg hk] at h
      have := clLookup_nodeSize k rest c h
      show nodeSize c ≤ nodeSize n + clSize rest
      omega

theorem clIsEmpty_iff (cs : ChildList) : clIsEmpty cs = true ↔ cs = .nil := by
  cases cs <;> simp [clIsEmpty]

theorem clLookup_clRemove_ne (k k' : String) (h : ¬ k = k') :
    ∀ cl, clLookup k (clRemove k' cl) = clLookup k cl
  | .nil => rfl
  | .cons k2 n rest => by
    unfold clRemove
    by_cases h2 : k' = k2
    · rw [if_pos h2]
      have hne : ¬ k = k2 := fun he => h (he.trans h2.symm)
      simp [clLookup, if_neg hne]
    · rw [if_neg h2]
      unfold clLookup
      by_cases hk : k = k2
      · simp [if_pos hk]
      · simp [if_neg hk, clLookup_clRemove_ne k k' h rest]

theorem push_bound (s x w c1 c2 : Nat) (hs : 1 ≤ s) (hc1 : c1 ≤ s - 1)
    (hc2 : c2 ≤ s - 1) (hx : 1 ≤ x) :
    c1 * x + (c2 * x + w) < s * (x * 3) + w := by
  have h1 : c1 * x ≤ (s - 1) * x := Nat.mul_le_mul_right x hc1
  have h2 : c2 * x ≤ (s - 1) * x := Nat.mul_le_mul_right x hc2
  have h3 : (s - 1) * x + (s - 1) * x < s * (x * 3) := by
    have hlt : (s - 1) + (s - 1) < s * 3 := by omega
    calc (s - 1) * x + (s - 1) * x = ((s - 1) + (s - 1)) * x := by ring
    _ < (s * 3) * x := by
        exact Nat.mul_lt_mul_of_lt_of_le hlt (le_refl x) (by omega)
    _ = s * (x * 3) := by ring
  omega

theorem matchWeight_cons (L : Nat) (n : TopicNode) (i : Nat)
    (rest : List (TopicNode × Nat)) :
    matchWeight L ((n, i) :: rest)
      = nodeSize n * 3 ^ (L - i) + matchWeight L rest := rfl

theorem matchWeight_pos (L : Nat) (n : TopicNode) (i : Nat)
    (rest : List (TopicNode × Nat)) :
    1 ≤ matchWeight L ((n, i) :: rest) := by
  rw [matchWeight_cons]
  have h1 : 1 ≤ nodeSize n := nodeSize_pos n
  have h2 : 1 ≤ 3 ^ (L - i) := Nat.one_le_pow _ _ (by norm_num)
  have h3 : 1 * 1 ≤ nodeSize n * 3 ^ (L - i) := Nat.mul_le_mul h1 h2
  omega

theorem matchStep_weight (levels : List String) (n : TopicNode) (i : Nat)
    (rest : List (TopicNode × Nat)) (result : List (String × Nat)) :
    matchWeight levels.length (matchStep levels n i rest result).1
      < matchWeight levels.length ((n, i) :: rest) := by
  have hrest : matchWeight levels.length rest
      < matchWeight levels.length ((n, i) :: rest) := by
    rw [matchWeight_cons]
    have h1 : 1 ≤ nodeSize n := nodeSize_pos n
    have h2 : 1 ≤ 3 ^ (levels.length - i) := Nat.one_le_pow _ _ (by norm_num)
    have h3 : 1 * 1 ≤ nodeSize n * 3 ^ (levels.length - i) := Nat.mul_le_mul h1 h2
    omega
  unfold matchStep
  by_cases hiL : i = levels.length
  · rw [if_pos hiL]; exact hrest
  · rw [if_neg hiL]
    by_cases hLi : levels.length < i
    · rw [if_pos hLi]; exact hrest
    · rw [if_neg hLi]
      have hik : i < levels.length := by omega
      by_cases hempty : clIsEmpty (childrenOf n) = true
      · rw [if_pos hempty]; exact hrest
      · rw [if_neg hempty]
        have hsz : ∀ c, clLookup (levels.getD i "") (childrenOf n) = some c →
            nodeSize c ≤ nodeSize n - 1 := by
          intro c hc
          have := clLookup_nodeSize _ _ _ hc
          have := nodeSize_children n
          omega
        have hszp : ∀ c, clLookup "+" (childrenOf n) = some c →
            nodeSize c ≤ nodeSize n - 1 := by
          intro c hc
          have := clLookup_nodeSize _ _ _ hc
          have := nodeSize_children n
          omega
        have hpow : (3 : Nat) ^ (levels.length - i)
            = 3 ^ (levels.length - (i + 1)) * 3 := by
          have h1 : levels.length - i = (levels.length - (i + 1)) + 1 := by omega
          rw [h1, pow_succ]
        have hx : 1 ≤ (3 : Nat) ^ (levels.length - (i + 1)) :=
          Nat.one_le_pow _ _ (by norm_num)
        have hs1 : 1 ≤ nodeSize n := nodeSize_pos n
        cases hcur : clLookup (levels.getD i "") (childrenOf n) with
        | none =>
          cases hsys : ((i == 0) && startsWithDollar (levels.getD i "")) with
          | true =>
            simp only [hcur, hsys, if_true]
            exact hrest
          | false =>
            simp only [hcur, hsys]
            cases hplus : clLookup "+" (childrenOf n) with
            | none => exact hrest
            | some cp =>
              show matchWeight levels.length ((cp, i + 1) :: rest)
                < nodeSize n * 3 ^ (levels.length - i)
                  + matchWeight levels.length rest
              rw [matchWeight_cons, hpow]
              have hcp := hszp cp hplus
              have := push_bound (nodeSize n) (3 ^ (levels.length - (i + 1)))
                (matchWeight levels.length rest) (nodeSize cp) 0 hs1 hcp
                (by omega) hx
              omega
        | some ce =>
          cases hsys : ((i == 0) && startsWithDollar (levels.getD i "")) with
          | true =>
            simp only [hcur, hsys]
            show matchWeight levels.length ((ce, i + 1) :: rest)
              < nodeSize n * 3 ^ (levels.length - i)
                + matchWeight levels.length rest
            rw [matchWeight_cons, hpow]
            have hce := hsz ce hcur
            have := push_bound (nodeSize n) (3 ^ (levels.length - (i + 1)))
              (matchWeight levels.length rest) (nodeSize ce) 0 hs1 hce
              (by omega) hx
            omega
          | false =>
            simp only [hcur, hsys]
            cases hplus : clLookup "+" (childrenOf n) with
            | none =>
              show matchWeight levels.length ((ce, i + 1) :: rest)
                < nodeSize n * 3 ^ (levels.length - i)
                  + matchWeight levels.length rest
              rw [matchWeight_cons, hpow]
              have hce := hsz ce hcur
              have := push_bound (nodeSize n) (3 ^ (levels.length - (i + 1)))
                (matchWeight levels.length rest) (nodeSize ce) 0 hs1 hce
                (by omega) hx
              omega
            | some cp =>
              show matchWeight levels.length ((cp, i + 1) :: (ce, i + 1) :: rest)
                < nodeSize n * 3 ^ (levels.length - i)
                  + matchWeight levels.length rest
              rw [matchWeight_cons, matchWeight_cons, hpow]
              have hce := hsz ce hcur
              have hcp := hszp cp hplus
              have := push_bound (nodeSize n) (3 ^ (levels.length - (i + 1)))
                (matchWeight levels.length rest) (nodeSize cp) (nodeSize ce)
                hs1 hcp hce hx
              omega

theorem matchGo_fuel_congr (levels : List String) :
    ∀ w stack result f₁ f₂, matchWeight levels.length stack = w →
      w ≤ f₁ → w ≤ f₂ →
      matchGo levels f₁ stack result = matchGo levels f₂ stack result := by
  intro w
  induction w using Nat.strong_induction_on with
  | _ w ih =>
    intro stack result f₁ f₂ hw h1 h2
    match stack with
    | [] => cases f₁ <;> cases f₂ <;> rfl
    | (n, i) :: rest =>
      have hpos : 1 ≤ matchWeight levels.length ((n, i) :: rest) :=
        matchWeight_pos _ n i rest
      obtain ⟨a, rfl⟩ : ∃ a, f₁ = a + 1 := ⟨f₁ - 1, by omega⟩
      obtain ⟨b, rfl⟩ : ∃ b, f₂ = b + 1 := ⟨f₂ - 1, by omega⟩
      have hstep1 : matchGo levels (a + 1) ((n, i) :: rest) result
          = matchGo levels a (matchStep levels n i rest result).1
              (matchStep levels n i rest result).2 := rfl
      have hstep2 : matchGo levels (b + 1) ((n, i) :: rest) result
          = matchGo levels b (matchStep levels n i rest result).1
              (matchStep levels n i rest result).2 := rfl
      rw [hstep1, hstep2]
      have hlt := matchStep_weight levels n i rest result
      exact ih (matchWeight levels.length (matchStep levels n i rest result).1)
        (by omega) _ _ a b rfl (by omega) (by omega)

/-! ## Claim C7: `$`-prefixed topics are invisible to root-level wildcards -/

/-- C7: for a concrete topic whose first level begins with `$`,
`TopicTree.match` returns exactly what it would return if the `+` and `#`
children of the root did not exist: subscriptions whose filter has a
wildcard at the first level (in particular a plain `#` subscription) can
contribute nothing to the match result (topic.py:148-166). -/
theorem c7_dollar_topics_skip_root_wildcards (t : TopicNode) (topic : String)
    (h : startsWithDollar ((splitTopic topic).headD "") = true) :
    topic_tree_match t topic = topic_tree_match (remove_root_wildcards t) topic := by
  obtain ⟨subs, ret, cs⟩ := t
  rcases hsplit : splitTopic topic with _ | ⟨l₀, ls⟩
  · rw [hsplit] at h; exact absurd h (by decide)
  · rw [hsplit] at h
    have hd : startsWithDollar l₀ = true := by simpa using h
    have hne1 : ¬ l₀ = "+" := by
      intro he; rw [he] at hd; exact absurd hd (by decide)
    have hne2 : ¬ l₀ = "#" := by
      intro he; rw [he] at hd; exact absurd hd (by decide)
    have h0L : ¬ ((0 : Nat) = (l₀ :: ls).length) := by simp
    have hL0 : ¬ ((l₀ :: ls).length < 0) := by omega
    have hlook : clLookup l₀ (clRemove "+" (clRemove "#" cs)) = clLookup l₀ cs := by
      rw [clLookup_clRemove_ne l₀ "+" hne1, clLookup_clRemove_ne l₀ "#" hne2]
    have hstep : matchStep (l₀ :: ls) (.mk subs ret cs) 0 [] []
        = matchStep (l₀ :: ls)
            (.mk subs ret (clRemove "+" (clRemove "#" cs))) 0 [] [] := by
      unfold matchStep
      rw [if_neg h0L, if_neg hL0, if_neg h0L, if_neg hL0]
      by_cases hemp : clIsEmpty cs = true
      · rw [(clIsEmpty_iff cs).mp hemp]; rfl
      · by_cases hemp2 : clIsEmpty (clRemove "+" (clRemove "#" cs)) = true
        · have hnil : clRemove "+" (clRemove "#" cs) = .nil :=
            (clIsEmpty_iff _).mp hemp2
          have hlnone : clLookup l₀ cs = none := by
            rw [← hlook, hnil]; rfl
          simp only [childrenOf, if_neg hemp, if_pos hemp2,
            List.getD_cons_zero, hd, Bool.and_true, beq_self_eq_true,
            Bool.true_and, if_true, hlnone]
        · simp only [childrenOf, if_neg hemp, if_neg hemp2,
            List.getD_cons_zero, hd, Bool.and_true, beq_self_eq_true,
            Bool.true_and, if_true, hlook]
    have hw1 : 1 ≤ matchWeight (l₀ :: ls).length [(TopicNode.mk subs ret cs, 0)] :=
      matchWeight_pos _ _ _ _
    have hw2 : 1 ≤ matchWeight (l₀ :: ls).length
        [(TopicNode.mk subs ret (clRemove "+" (clRemove "#" cs)), 0)] :=
      matchWeight_pos _ _ _ _
    have hunfold : ∀ u : TopicNode, topic_tree_match u topic
        = matchGo (l₀ :: ls)
            (matchWeight (l₀ :: ls).length [(u, 0)]) [(u, 0)] [] := by
      intro u
      unfold topic_tree_match
      rw [hsplit]
    rw [hunfold, hunfold]
    show matchGo (l₀ :: ls)
        (matchWeight (l₀ :: ls).length [(TopicNode.mk subs ret cs, 0)])
        [(TopicNode.mk subs ret cs, 0)] []
      = matchGo (l₀ :: ls)
        (matchWeight (l₀ :: ls).length
          [(TopicNode.mk subs ret (clRemove "+" (clRemove "#" cs)), 0)])
        [(TopicNode.mk subs ret (clRemove "+" (clRemove "#" cs)), 0)] []
    obtain ⟨a, ha⟩ : ∃ a, matchWeight (l₀ :: ls).length
        [(TopicNode.mk subs ret cs, 0)] = a + 1 :=
      ⟨matchWeight (l₀ :: ls).length [(TopicNode.mk subs ret cs, 0)] - 1,
        by omega⟩
    obtain ⟨b, hb⟩ : ∃ b, matchWeight (l₀ :: ls).length
        [(TopicNode.mk subs ret (clRemove "+" (clRemove "#" cs)), 0)] = b + 1 :=
      ⟨matchWeight (l₀ :: ls).length
        [(TopicNode.mk subs ret (clRemove "+" (clRemove "#" cs)), 0)] - 1,
        by omega⟩
    rw [ha, hb]
    have hred1 : matchGo (l₀ :: ls) (a + 1) [(TopicNode.mk subs ret cs, 0)] []
        = matchGo (l₀ :: ls) a
            (matchStep (l₀ :: ls) (.mk subs ret cs) 0 [] []).1
            (matchStep (l₀ :: ls) (.mk subs ret cs) 0 [] []).2 := rfl
    have hred2 : matchGo (l₀ :: ls) (b + 1)
          [(TopicNode.mk subs ret (clRemove "+" (clRemove "#" cs)), 0)] []
        = matchGo (l₀ :: ls) b
            (matchStep (l₀ :: ls)
              (.mk subs ret (clRemove "+" (clRemove "#" cs))) 0 [] []).1
            (matchStep (l₀ :: ls)
              (.mk subs ret (clRemove "+" (clRemove "#" cs))) 0 [] []).2 := rfl
    rw [hred1, hred2, ← hstep]
    have hlt1 := matchStep_weight (l₀ :: ls) (.mk subs ret cs) 0 [] []
    have hlt2 := matchStep_weight (l₀ :: ls)
      (.mk subs ret (clRemove "+" (clRemove "#" cs))) 0 [] []
    rw [← hstep] at hlt2
    exact matchGo_fuel_congr (l₀ :: ls)
      (matchWeight (l₀ :: ls).length
        (matchStep (l₀ :: ls) (.mk subs ret cs) 0 [] []).1)
      _ _ a b rfl (by omega) (by omega)

/-- Closed witness for C7: a client subscribed to `#` and another to
`$SYS/#` against topic `$SYS/broker/uptime`. -/
theorem c7_dollar_topics_witness :
    topic_tree_match
        (tree_subscribe (splitTopic "$SYS/#")
          (tree_subscribe (splitTopic "#") emptyNode "wild" 0) "sysguy" 1)
        "$SYS/broker/uptime"
      = topic_tree_match
        (remove_root_wildcards
          (tree_subscribe (splitTopic "$SYS/#")
            (tree_subscribe (splitTopic "#") emptyNode "wild" 0) "sysguy" 1))
        "$SYS/broker/uptime" :=
  c7_dollar_topics_skip_root_wildcards _ "$SYS/broker/uptime" (by decide)

/-! ## Lemmas: retained slots in the trie -/

theorem get_retained_emptyNode (p : List String) :
    get_retained p emptyNode = none := by
  cases p <;> rfl

theorem clLookup_clInsert_self (l : String) (v : TopicNode) :
    ∀ cs, clLookup l (clInsert l v cs) = some v
  | .nil => by simp [clInsert, clLookup]
  | .cons k n rest => by
    unfold clInsert
    by_cases hk : l = k
    · rw [if_pos hk]; simp [clLookup]
    · rw [if_neg hk]
      unfold clLookup
      rw [if_neg hk]
      exact clLookup_clInsert_self l v rest

theorem clLookup_clInsert_ne (l q : String) (v : TopicNode) (h : ¬ q = l) :
    ∀ cs, clLookup q (clInsert l v cs) = clLookup q cs
  | .nil => by simp [clInsert, clLookup, if_neg h]
  | .cons k n rest => by
    unfold clInsert
    by_cases hk : l = k
    · rw [if_pos hk]
      unfold clLookup
      have hqk : ¬ q = k := fun he => h (he.trans hk.symm)
      rw [if_neg (hk ▸ h), if_neg hqk]
    · rw [if_neg hk]
      unfold clLookup
      by_cases hq : q = k
      · rw [if_pos hq, if_pos hq]
      · rw [if_neg hq, if_neg hq]
        exact clLookup_clInsert_ne l q v h rest

theorem clRC_clInsert_none (l : String) (v : TopicNode) :
    ∀ cs, clLookup l cs = none →
      clRetainedCount (clInsert l v cs) = clRetainedCount cs + retained_count v
  | .nil, _ => by
    show retained_count v + clRetainedCount .nil
      = clRetainedCount .nil + retained_count v
    omega
  | .cons k n rest, h => by
    unfold clLookup at h
    by_cases hk : l = k
    · rw [if_pos hk] at h; cases h
    · rw [if_neg hk] at h
      unfold clInsert
      rw [if_neg hk]
      show retained_count n + clRetainedCount (clInsert l v rest)
        = retained_count n + clRetainedCount rest + retained_count v
      rw [clRC_clInsert_none l v rest h]
      omega

theorem clRC_clInsert_some (l : String) (v : TopicNode) :
    ∀ cs c, clLookup l cs = some c →
      clRetainedCount (clInsert l v cs) + retained_count c
        = clRetainedCount cs + retained_count v
  | .nil, c, h => by cases h
  | .cons k n rest, c, h => by
    unfold clLookup at h
    by_cases hk : l = k
    · rw [if_pos hk] at h
      cases h
      unfold clInsert
      rw [if_pos hk]
      show retained_count v + clRetainedCount rest + retained_count n
        = retained_count n + clRetainedCount rest + retained_count v
      omega
    · rw [if_neg hk] at h
      unfold clInsert
      rw [if_neg hk]
      show retained_count n + clRetainedCount (clInsert l v rest)
          + retained_count c
        = retained_count n + clRetainedCount rest + retained_count v
      have := clRC_clInsert_some l v rest c h
      omega

theorem get_retained_set_retained_self :
    ∀ (p : List String) (t : TopicNode) (name : String) (pl : List Nat)
      (qos : Nat),
      get_retained p (set_retained p t name pl qos)
        = if pl.isEmpty then none else some (name, pl, qos) := by
  intro p
  induction p with
  | nil =>
    intro t name pl qos
    cases t with
    | mk subs ret cs => rfl
  | cons l rest ih =>
    intro t name pl qos
    cases t with
    | mk subs ret cs =>
      show get_retained (l :: rest)
          (.mk subs ret (clInsert l
            (set_retained rest ((clLookup l cs).getD emptyNode) name pl qos) cs))
        = _
      unfold get_retained
      simp only [childrenOf, clLookup_clInsert_self]
      exact ih _ name pl qos

theorem get_retained_set_retained_ne :
    ∀ (p q : List String), ¬ p = q →
      ∀ (t : TopicNode) (name : String) (pl : List Nat) (qos : Nat),
        get_retained q (set_retained p t name pl qos) = get_retained q t := by
  intro p
  induction p with
  | nil =>
    intro q hpq t name pl qos
    cases q with
    | nil => exact absurd rfl hpq
    | cons m q' =>
      cases t with
      | mk subs ret cs => rfl
  | cons l p' ih =>
    intro q hpq t name pl qos
    cases q with
    | nil =>
      cases t with
      | mk subs ret cs => rfl
    | cons m q' =>
      cases t with
      | mk subs ret cs =>
        show get_retained (m :: q')
            (.mk subs ret (clInsert l
              (set_retained p' ((clLookup l cs).getD emptyNode) name pl qos) cs))
          = get_retained (m :: q') (.mk subs ret cs)
        unfold get_retained
        simp only [childrenOf]
        by_cases hml : m = l
        · subst hml
          rw [clLookup_clInsert_self]
          have hp'q' : ¬ p' = q' := by
            intro he; exact hpq (by rw [he])
          cases hcl : clLookup m cs with
          | none =>
            simp only [Option.getD_none]
            rw [ih q' hp'q' emptyNode name pl qos]
            rw [get_retained_emptyNode]
          | some c =>
            simp only [Option.getD_some]
            exact ih q' hp'q' c name pl qos
        · rw [clLookup_clInsert_ne l m _ hml]

theorem retained_count_set_retained :
    ∀ (p : List String) (t : TopicNode) (name : String) (pl : List Nat)
      (qos : Nat),
      retained_count (set_retained p t name pl qos)
          + (if (get_retained p t).isSome then 1 else 0)
        = retained_count t + (if pl.isEmpty then 0 else 1) := by
  intro p
  induction p with
  | nil =>
    intro t name pl qos
    cases t with
    | mk subs ret cs =>
      show retained_count (.mk subs
            (if pl.isEmpty then none else some (name, pl, qos)) cs)
          + (if (retainedOf (.mk subs ret cs)).isSome then 1 else 0)
        = retained_count (.mk subs ret cs) + (if pl.isEmpty then 0 else 1)
      unfold retained_count
      simp only [retainedOf]
      cases hpl : pl.isEmpty <;> cases ret <;> simp <;> omega
  | cons l p' ih =>
    intro t name pl qos
    cases t with
    | mk subs ret cs =>
      have hset : set_retained (l :: p') (.mk subs ret cs) name pl qos
          = .mk subs ret (clInsert l
              (set_retained p' ((clLookup l cs).getD emptyNode) name pl qos)
              cs) := rfl
      have hget : get_retained (l :: p') (.mk subs ret cs)
          = (match clLookup l cs with
             | none => none
             | some c => get_retained p' c) := rfl
      cases hcl : clLookup l cs with
      | none =>
        have hsetn : set_retained (l :: p') (.mk subs ret cs) name pl qos
            = .mk subs ret (clInsert l
                (set_retained p' emptyNode name pl qos) cs) := by
          rw [hset, hcl]; rfl
        have hgetn : get_retained (l :: p') (.mk subs ret cs) = none := by
          rw [hget, hcl]
        rw [hsetn, hgetn]
        simp only [Option.isSome_none, Bool.false_eq_true, if_false]
        have hins := clRC_clInsert_none l
          (set_retained p' emptyNode name pl qos) cs hcl
        have hbase := ih emptyNode name pl qos
        rw [get_retained_emptyNode] at hbase
        simp only [Option.isSome_none, Bool.false_eq_true, if_false] at hbase
        have hempty0 : retained_count emptyNode = 0 := rfl
        rw [hempty0] at hbase
        have hrc1 : retained_count (.mk subs ret (clInsert l
              (set_retained p' emptyNode name pl qos) cs))
            = (if ret.isSome then 1 else 0)
              + clRetainedCount (clInsert l
                  (set_retained p' emptyNode name pl qos) cs) := rfl
        have hrc2 : retained_count (.mk subs ret cs)
            = (if ret.isSome then 1 else 0) + clRetainedCount cs := rfl
        rw [hrc1, hrc2, hins]
        omega
      | some c =>
        have hsets : set_retained (l :: p') (.mk subs ret cs) name pl qos
            = .mk subs ret (clInsert l
                (set_retained p' c name pl qos) cs) := by
          rw [hset, hcl]; rfl
        have hgets : get_retained (l :: p') (.mk subs ret cs)
            = get_retained p' c := by
          rw [hget, hcl]
        rw [hsets, hgets]
        have hins := clRC_clInsert_some l
          (set_retained p' c name pl qos) cs c hcl
        have hrec := ih c name pl qos
        have hrc1 : retained_count (.mk subs ret (clInsert l
              (set_retained p' c name pl qos) cs))
            = (if ret.isSome then 1 else 0)
              + clRetainedCount (clInsert l
                  (set_retained p' c name pl qos) cs) := rfl
        have hrc2 : retained_count (.mk subs ret cs)
            = (if ret.isSome then 1 else 0) + clRetainedCount cs := rfl
        rw [hrc1, hrc2]
        omega

/-! ## Claim C5: retained-store cap and LRU eviction -/

/-- Counterexample to C5 as stated: the config validator accepts
`max_retained_messages = 0` (config.py:120-121 requires only `>= 0`), and
a first retained set then yields count 1 > 0 — the cap is exceeded
because the LRU list is empty and nothing can be evicted
(retained.py:71-81). -/
theorem c5_counterexample :
    ¬ retained_count (retained_store_set
        { max_retained_messages := 0 } ⟨emptyNode, []⟩ "a" [1] 0).1.tree
      ≤ (0 : Nat) := by decide

/-- C5 amended: provided `max_retained_messages ≥ 1`, every
`RetainedStore.set` with retain enabled and a non-empty payload keeps the
retained count at or below the cap; and when the topic is new while the
count equals the cap, the evicted victim is exactly the head of the LRU
list (the least recently set/updated topic): its slot is cleared and it
leaves the LRU order (retained.py:42-81). -/
theorem c5_retained_cap (cfg : BrokerConfig) (st : RetainedStoreState)
    (topic : String) (payload : List Nat) (qos : Nat)
    (hinv : store_inv st)
    (hen : cfg.retain_enabled = true)
    (hcap : 1 ≤ cfg.max_retained_messages)
    (hle : retained_count st.tree ≤ cfg.max_retained_messages)
    (hpl : payload.isEmpty = false) :
    retained_count (retained_store_set cfg st topic payload qos).1.tree
      ≤ cfg.max_retained_messages ∧
    ((get_retained (splitTopic topic) st.tree).isNone = true →
      retained_count st.tree = cfg.max_retained_messages →
      ∃ ek lru_rest, st.lru_order = ek :: lru_rest ∧
        get_retained (splitTopic ek)
          (retained_store_set cfg st topic payload qos).1.tree = none ∧
        (retained_store_set cfg st topic payload qos).1.lru_order
          = lru_rest.erase topic ++ [topic]) := by
  have hre : ¬ (cfg.retain_enabled = false) := by simp [hen]
  have hpe : ¬ (payload.isEmpty = true) := by simp [hpl]
  by_cases hcond : (get_retained (splitTopic topic) st.tree).isNone = true
    ∧ cfg.max_retained_messages ≤ retained_count st.tree
  · -- eviction branch: the LRU list cannot be empty
    have hcnt : retained_count st.tree = cfg.max_retained_messages := by omega
    have hlen : 1 ≤ st.lru_order.length := by
      rw [hinv.2]; omega
    obtain ⟨ek, lru_rest, hlru⟩ : ∃ ek lru_rest,
        st.lru_order = ek :: lru_rest := by
      cases hl : st.lru_order with
      | nil => rw [hl] at hlen; simp at hlen
      | cons e r => exact ⟨e, r, rfl⟩
    have heq : retained_store_set cfg st topic payload qos
        = ({ tree := set_retained (splitTopic topic)
              (set_retained (splitTopic ek) st.tree ek [] 0) topic payload qos,
             lru_order := lru_rest.erase topic ++ [topic] }, true) := by
      unfold retained_store_set
      rw [if_neg hre, if_neg hpe, if_pos hcond, hlru]
    have hek_present : (get_retained (splitTopic ek) st.tree).isSome = true :=
      hinv.1 ek (by rw [hlru]; exact List.mem_cons_self ek lru_rest)
    have hfresh : get_retained (splitTopic topic) st.tree = none := by
      cases hg : get_retained (splitTopic topic) st.tree with
      | none => rfl
      | some v =>
        have := hcond.1
        rw [hg] at this
        simp at this
    have hne : ¬ splitTopic ek = splitTopic topic := by
      intro he
      rw [he, hfresh] at hek_present
      simp at hek_present
    have hclear : get_retained (splitTopic ek)
        (set_retained (splitTopic ek) st.tree ek [] 0) = none := by
      rw [get_retained_set_retained_self]
      simp
    have hcc := retained_count_set_retained (splitTopic ek) st.tree ek [] 0
    rw [hek_present] at hcc
    simp only [if_true, List.isEmpty_nil, if_pos] at hcc
    -- hcc : count (cleared tree) + 1 = count st.tree + 0
    have hfresh2 : get_retained (splitTopic topic)
        (set_retained (splitTopic ek) st.tree ek [] 0) = none := by
      rw [get_retained_set_retained_ne _ _ hne]
      exact hfresh
    have hcf := retained_count_set_retained (splitTopic topic)
      (set_retained (splitTopic ek) st.tree ek [] 0) topic payload qos
    rw [hfresh2, hpl] at hcf
    simp only [Option.isSome_none, Bool.false_eq_true, if_false] at hcf
    -- hcf : count (final tree) + 0 = count (cleared tree) + 1
    constructor
    · rw [heq]
      show retained_count (set_retained (splitTopic topic)
          (set_retained (splitTopic ek) st.tree ek [] 0) topic payload qos)
        ≤ cfg.max_retained_messages
      omega
    · intro _ _
      refine ⟨ek, lru_rest, hlru, ?_, ?_⟩
      · rw [heq]
        show get_retained (splitTopic ek)
            (set_retained (splitTopic topic)
              (set_retained (splitTopic ek) st.tree ek [] 0) topic payload qos)
          = none
        rw [get_retained_set_retained_ne _ _ (fun he => hne he.symm)]
        exact hclear
      · rw [heq]
  · have heq : retained_store_set cfg st topic payload qos
        = ({ tree := set_retained (splitTopic topic) st.tree topic payload qos,
             lru_order := st.lru_order.erase topic ++ [topic] }, true) := by
      unfold retained_store_set
      rw [if_neg hre, if_neg hpe, if_neg hcond]
    have hcs := retained_count_set_retained (splitTopic topic) st.tree
      topic payload qos
    rw [hpl] at hcs
    constructor
    · rw [heq]
      show retained_count (set_retained (splitTopic topic) st.tree
          topic payload qos) ≤ cfg.max_retained_messages
      cases hg : get_retained (splitTopic topic) st.tree with
      | some v =>
        rw [hg] at hcs
        simp only [Option.isSome_some, if_true] at hcs
        simp at hcs
        omega
      | none =>
        rw [hg] at hcs
        simp only [Option.isSome_none, Bool.false_eq_true, if_false] at hcs
        have hlt : ¬ cfg.max_retained_messages ≤ retained_count st.tree := by
          intro hcl
          exact hcond ⟨by rw [hg]; rfl, hcl⟩
        simp at hcs
        omega
    · intro hfresh hcnt
      exact absurd ⟨hfresh, by omega⟩ hcond

/-- Closed witness for C5 amended at cap 1: the store holding topic "a"
evicts it (the LRU head) when topic "b" arrives, and the count stays at
the cap. -/
theorem c5_retained_cap_witness :
    retained_count (retained_store_set { max_retained_messages := 1 }
        (retained_store_set { max_retained_messages := 1 }
          ⟨emptyNode, []⟩ "a" [5] 0).1 "b" [6] 0).1.tree ≤ 1 := by
  have h := c5_retained_cap { max_retained_messages := 1 }
    (retained_store_set { max_retained_messages := 1 }
      ⟨emptyNode, []⟩ "a" [5] 0).1 "b" [6] 0
    (by constructor
        · intro k hk
          fin_cases hk
          decide
        · decide)
    (by decide) (by decide) (by decide) (by decide)
  exact h.1

end Beehive
